import Mathlib

/-!
Verification of the Plugin Command Bridge of `figmad-mcp`
(`src/services/plugin-bridge/server.ts`), a request/response correlation
layer: commands are sent to a single peer over a websocket, responses are
matched to pending promises by id, with a fixed 30 000 ms timeout per
command and a drain-on-shutdown.

Shallow embedding: the `PluginBridge` class state is a `BridgeState`;
each method becomes a pure function `BridgeState → ... → BridgeState × List Event`.
Invoking a stored promise continuation is modelled as emitting a
`Event.settle call outcome`, where `call` is a serial number identifying
the `sendCommand` invocation that created the promise (and doubles as the
`setTimeout` handle stored in the pending entry, since both are created
exactly once per registered send).  JS `Map` insertion-order semantics
are modelled on association lists (`mapGet` / `mapSet` / `mapDelete`).
`generateId()` (time + random suffix) is modelled by passing the id as an
argument to `sendCommand`.
-/

namespace Figmad

/-- `WebSocket.OPEN` ready-state constant of the `ws` library. -/
def wsOPEN : Nat := 1

/-- A peer websocket connection: identity plus its `readyState`. -/
structure WSConn where
  cid : Nat
  readyState : Nat
  deriving DecidableEq, Repr

/-- `PluginResult` union from `src/types/commands.ts` (the bridge never
inspects the payload; `record` covers the `Record<string, unknown>` arm
with opaque string values). -/
inductive PluginResult where
  | nodeId (nodeId : String)
  | nodeIds (nodeIds : List String)
  | page (id name : String)
  | selection (items : List (String × String × String))
  | record (fields : List (String × String))
  deriving DecidableEq, Repr

/-- `PluginResponse` from `src/types/commands.ts`: optional fields become
`Option` (JSON field present ⇔ `some`; the typed payloads are objects, so
presence coincides with JS truthiness). -/
structure PluginResponse where
  id : String
  success : Bool
  result : Option PluginResult
  error : Option String
  deriving DecidableEq, Repr

/-- Message of `PluginNotConnectedError` (`src/lib/errors`). -/
def pluginNotConnectedMessage : String :=
  "Figma plugin is not connected. Please open Figma and run the figmad plugin."

/-- Message template of `PluginTimeoutError` (`src/lib/errors`). -/
def pluginTimeoutMessage (commandType : String) (timeoutMs : Nat) : String :=
  "Plugin command " ++ "'" ++ commandType ++ "'" ++ " timed out after "
    ++ toString timeoutMs ++ "ms"

/-- The errors a pending promise can be rejected with (distinguished by
constructor, mirroring the distinct classes / fixed strings in the code). -/
inductive BridgeError where
  | notConnected
  | timeout (commandType : String) (timeoutMs : Nat)
  | peer (message : String)
  | stopped
  deriving DecidableEq, Repr

/-- The message carried by each rejection, as constructed in `server.ts`
and `src/lib/errors`. -/
def BridgeError.message : BridgeError → String
  | .notConnected => pluginNotConnectedMessage
  | .timeout ty ms => pluginTimeoutMessage ty ms
  | .peer m => m
  | .stopped => "Plugin bridge stopped"

/-- Terminal outcome delivered to a caller's promise. -/
inductive Outcome where
  | resolved (result : PluginResult)
  | rejected (e : BridgeError)
  deriving DecidableEq, Repr

/-- Observable actions the bridge performs: settling a promise, sending a
serialized command frame, calling `close()` on a peer connection, and
calling `close()` on the `WebSocketServer`. -/
inductive Event where
  | settle (call : Nat) (o : Outcome)
  | sentCmd (call : Nat) (cmdType : String) (id : String)
  | closeConn (cid : Nat)
  | serverClose
  deriving DecidableEq, Repr

/-- A `PendingCommand` entry of the correlation table.  The stored
`resolve`/`reject` continuations and the `timeout` handle are all
identified by the serial number `call` of the `sendCommand` invocation
that created them. -/
structure PendingCommand where
  call : Nat
  deriving DecidableEq, Repr

/-- An armed `setTimeout` timer created by `sendCommand`: its handle
(= `call`), the captured command id, command type and delay. -/
structure Timer where
  call : Nat
  id : String
  cmdType : String
  delayMs : Nat
  deriving DecidableEq, Repr

/-- State of a `PluginBridge` instance: the `wss` listener (up or null),
the `client` connection (or null), the `pendingCommands` map, the set of
armed timers, the `isRunning` flag and the serial counter for fresh
call/timer identities. -/
structure BridgeState where
  wssUp : Bool
  client : Option WSConn
  pendingCommands : List (String × PendingCommand)
  timers : List Timer
  isRunning : Bool
  next : Nat
  deriving DecidableEq, Repr

/-- `COMMAND_TIMEOUT_MS` constant of `server.ts`. -/
def COMMAND_TIMEOUT_MS : Nat := 30000

/-- Bridge state right after `start()` resolved: listening, no peer, empty
correlation table. -/
def initState : BridgeState :=
  { wssUp := true, client := none, pendingCommands := [], timers := [],
    isRunning := true, next := 0 }

/-- JS `Map.get` on an insertion-ordered association list. -/
def mapGet (m : List (String × PendingCommand)) (k : String) : Option PendingCommand :=
  (m.find? (fun p => p.1 == k)).map (fun p => p.2)

/-- JS `Map.set`: replaces in place when the key is present, appends
otherwise. -/
def mapSet (m : List (String × PendingCommand)) (k : String) (v : PendingCommand) :
    List (String × PendingCommand) :=
  if m.any (fun p => p.1 == k) then
    m.map (fun p => if p.1 == k then (k, v) else p)
  else
    m ++ [(k, v)]

/-- JS `Map.delete`. -/
def mapDelete (m : List (String × PendingCommand)) (k : String) :
    List (String × PendingCommand) :=
  m.filter (fun p => p.1 != k)

/-- `PluginBridge.isConnected`: `client !== null && client.readyState === WebSocket.OPEN`. -/
def isConnected (s : BridgeState) : Bool :=
  match s.client with
  | none => false
  | some c => c.readyState == wsOPEN

/-- What `sendCommand` returns to its caller: a synchronously thrown
`PluginNotConnectedError`, or a registered promise identified by `call`. -/
inductive SendOutcome where
  | thrown (e : BridgeError)
  | sent (call : Nat)
  deriving DecidableEq, Repr

/-- `PluginBridge.sendCommand`: throws when not connected; otherwise arms a
30 000 ms timer, registers the pending entry under the generated id
(`Map.set`), and sends the serialized command frame.  The generated id is
an argument (modelling `generateId()`); the timestamp does not influence
the bridge and is omitted. -/
def sendCommand (s : BridgeState) (cmdType : String) (id : String) :
    BridgeState × SendOutcome × List Event :=
  if isConnected s then
    let call := s.next
    ({ s with
        timers := s.timers ++ [⟨call, id, cmdType, COMMAND_TIMEOUT_MS⟩],
        pendingCommands := mapSet s.pendingCommands id ⟨call⟩,
        next := s.next + 1 },
      .sent call,
      [.sentCmd call cmdType id])
  else
    (s, .thrown .notConnected, [])

/-- JS `a || b` for an optional string `a` with a string fallback `b`:
`b` is used when `a` is absent or the empty string (the only falsy
strings). -/
def jsOrString (a : Option String) (b : String) : String :=
  match a with
  | some s => if s == "" then b else s
  | none => b

/-- `PluginBridge.handleResponse`: unknown id is a logged no-op; otherwise
clear the entry's timer, delete the entry, and resolve when
`response.success && response.result` (result objects are truthy ⇔
present), else reject with `response.error || 'Unknown plugin error'`
(JS truthiness: an absent or empty `error` string falls back). -/
def handleResponse (s : BridgeState) (r : PluginResponse) : BridgeState × List Event :=
  match mapGet s.pendingCommands r.id with
  | none => (s, [])
  | some e =>
    let s' := { s with
        timers := s.timers.filter (fun t => t.call != e.call),
        pendingCommands := mapDelete s.pendingCommands r.id }
    match r.success, r.result with
    | true, some res => (s', [.settle e.call (.resolved res)])
    | _, _ =>
      (s', [.settle e.call (.rejected (.peer (jsOrString r.error "Unknown plugin error")))])

/-- The `message` handler of `handleConnection`: a frame that fails
`JSON.parse` (`none`) is logged and ignored; a parsed frame goes to
`handleResponse`. -/
def handleMessage (s : BridgeState) (frame : Option PluginResponse) : BridgeState × List Event :=
  match frame with
  | none => (s, [])
  | some r => handleResponse s r

/-- The `setTimeout` callback armed by `sendCommand` for handle `call`,
firing only if the timer is still armed: it deletes the map entry at the
captured id and rejects with `PluginTimeoutError(type, 30000)`. -/
def fireTimeout (s : BridgeState) (call : Nat) : BridgeState × List Event :=
  match s.timers.find? (fun t => t.call == call) with
  | none => (s, [])
  | some t =>
    ({ s with
        timers := s.timers.filter (fun u => u.call != t.call),
        pendingCommands := mapDelete s.pendingCommands t.id },
      [.settle t.call (.rejected (.timeout t.cmdType t.delayMs))])

/-- `PluginBridge.handleConnection`: if a client is attached, call
`close()` on it (logging a warning), then attach the new one.  The
correlation table and timers are untouched. -/
def handleConnection (s : BridgeState) (ws : WSConn) : BridgeState × List Event :=
  match s.client with
  | some old => ({ s with client := some ws }, [.closeConn old.cid])
  | none => ({ s with client := some ws }, [])

/-- The `close` handler of a peer connection `ws`: detach only if it is
still the attached client. -/
def handleClose (s : BridgeState) (cid : Nat) : BridgeState :=
  match s.client with
  | some c => if c.cid == cid then { s with client := none } else s
  | none => s

/-- `PluginBridge.stop`: close the listener if present, null out the
client (no `close()` call is made on it), clear `isRunning`, then for
each pending entry clear its timer and reject with
`Error('Plugin bridge stopped')`, and clear the map. -/
def stop (s : BridgeState) : BridgeState × List Event :=
  let pcalls := s.pendingCommands.map (fun p => p.2.call)
  ({ wssUp := false, client := none, isRunning := false,
      pendingCommands := [],
      timers := s.timers.filter (fun t => !(pcalls.contains t.call)),
      next := s.next },
    (if s.wssUp then [Event.serverClose] else [])
      ++ s.pendingCommands.map (fun p => Event.settle p.2.call (.rejected .stopped)))

/-- An externally triggered step of the bridge: a peer connecting, a peer
connection closing, an inbound frame (already JSON-parsed, `none` on parse
failure), a `sendCommand` call, a timer firing, or `stop()`. -/
inductive Action where
  | connect (ws : WSConn)
  | close (cid : Nat)
  | message (frame : Option PluginResponse)
  | send (cmdType : String) (id : String)
  | fire (call : Nat)
  | stop
  deriving DecidableEq, Repr

/-- One step of the bridge. -/
def exec (s : BridgeState) (a : Action) : BridgeState × List Event :=
  match a with
  | .connect ws => handleConnection s ws
  | .close cid => (handleClose s cid, [])
  | .message f => handleMessage s f
  | .send ty id => ((sendCommand s ty id).1, (sendCommand s ty id).2.2)
  | .fire c => fireTimeout s c
  | .stop => Figmad.stop s

/-- Run a sequence of actions, accumulating the event trace. -/
def execAll (s : BridgeState) (as : List Action) : BridgeState × List Event :=
  match as with
  | [] => (s, [])
  | a :: rest =>
    ((execAll (exec s a).1 rest).1, (exec s a).2 ++ (execAll (exec s a).1 rest).2)

/-- Every `send` in the sequence uses an id not currently registered in the
correlation table — the collision-freeness `generateId()` provides. -/
def freshIds (s : BridgeState) (as : List Action) : Bool :=
  match as with
  | [] => true
  | a :: rest =>
    (match a with
      | .send _ id => mapGet s.pendingCommands id == none
      | _ => true)
    && freshIds (exec s a).1 rest

/-- Is this event a settlement of call `k`? -/
def isSettleFor (k : Nat) : Event → Bool
  | .settle c _ => c == k
  | _ => false

/-- Number of settlements of call `k` in a trace. -/
def settleCount (tr : List Event) (k : Nat) : Nat :=
  (tr.filter (isSettleFor k)).length

/-- The calls currently registered in the correlation table. -/
def pendingCalls (s : BridgeState) : List Nat :=
  s.pendingCommands.map (fun p => p.2.call)

/-- A connected peer used in concrete witnesses. -/
def exConn : WSConn := ⟨7, wsOPEN⟩

/-- A listening bridge with a connected peer and an empty table. -/
def exConnState : BridgeState :=
  { wssUp := true, client := some exConn, pendingCommands := [], timers := [],
    isRunning := true, next := 0 }

/-- A bridge with two registered pending commands, used as witness data. -/
def exTwoPending : BridgeState :=
  { wssUp := true, client := some exConn,
    pendingCommands := [("id-a", ⟨0⟩), ("id-b", ⟨1⟩)],
    timers := [⟨0, "id-a", "CREATE_FRAME", 30000⟩, ⟨1, "id-b", "DELETE_NODE", 30000⟩],
    isRunning := true, next := 2 }

/-- Does this event record a `close()` call on a peer connection? -/
def isCloseConn : Event → Bool
  | .closeConn _ => true
  | _ => false

/-- A bridge with one pending command, peer attached. -/
def exOnePending : BridgeState :=
  { wssUp := true, client := some exConn,
    pendingCommands := [("id-a", ⟨0⟩)],
    timers := [⟨0, "id-a", "CREATE_FRAME", 30000⟩],
    isRunning := true, next := 1 }

/-- The outcome `handleResponse` delivers for a matched response. -/
def respOutcome (r : PluginResponse) : Outcome :=
  match r.success, r.result with
  | true, some res => .resolved res
  | _, _ => .rejected (.peer (jsOrString r.error "Unknown plugin error"))

abbrev GhostEntry : Type := String × Nat × String

/-- The correlation-table entry a ghost record denotes. -/
def entryOf (m : GhostEntry) : String × PendingCommand := (m.1, ⟨m.2.1⟩)

/-- The armed timer a ghost record denotes. -/
def timerOf (m : GhostEntry) : Timer := ⟨m.2.1, m.1, m.2.2, COMMAND_TIMEOUT_MS⟩

def ghostCalls (l : List GhostEntry) : List Nat := l.map (fun m => m.2.1)

def ghostIds (l : List GhostEntry) : List String := l.map (fun m => m.1)

/-- The inductive invariant: the table and timers are the images of one
ghost list with duplicate-free ids and calls, all below the serial
counter; every call below the counter is settled exactly once in the
trace or still registered (and settled zero times); calls at or above the
counter are untouched. -/
structure InvMeta (s : BridgeState) (tr : List Event) (l : List GhostEntry) : Prop where
  pend : s.pendingCommands = l.map entryOf
  tims : s.timers = l.map timerOf
  idsNodup : (ghostIds l).Nodup
  callsNodup : (ghostCalls l).Nodup
  callsLt : ∀ m ∈ l, m.2.1 < s.next
  once : ∀ k, settleCount tr k ≤ 1
  part : ∀ k, k < s.next →
    (settleCount tr k = 1 ∧ k ∉ ghostCalls l) ∨ (settleCount tr k = 0 ∧ k ∈ ghostCalls l)
  high : ∀ k, s.next ≤ k → settleCount tr k = 0 ∧ k ∉ ghostCalls l

/-- The invariant, with the ghost list existentially hidden. -/
def Inv (s : BridgeState) (tr : List Event) : Prop := ∃ l, InvMeta s tr l

/-- A concrete run: peer connects, two commands are sent, the first gets a
response, the second's timer fires. -/
def exTrace : List Action :=
  [.connect ⟨1, wsOPEN⟩,
    .send "CREATE_FRAME" "id-a",
    .send "DELETE_NODE" "id-b",
    .message (some ⟨"id-a", true, some (.nodeId "1:23"), none⟩),
    .fire 1]

end Figmad

namespace Figmad

/-! ### Basic lemmas about the map and trace operations -/

theorem settleCount_append (a b : List Event) (k : Nat) :
    settleCount (a ++ b) k = settleCount a k + settleCount b k := by
  simp [settleCount, List.filter_append]

theorem settleCount_nil (k : Nat) : settleCount [] k = 0 := rfl

theorem mapGet_mapDelete_ne (m : List (String × PendingCommand)) (k k' : String)
    (h : k ≠ k') : mapGet (mapDelete m k') k = mapGet m k := by
  induction m with
  | nil => rfl
  | cons p rest ih =>
    by_cases hk' : p.1 = k'
    · have h1 : (p.1 != k') = false := by simp [hk']
      have h2 : (p.1 == k) = false := by
        simp [hk']
        exact fun hc => h hc.symm
      simpa [mapGet, mapDelete, List.filter_cons, List.find?_cons, h1, h2] using ih
    · have h1 : (p.1 != k') = true := by simp [hk']
      by_cases hk : p.1 = k
      · have h2 : (p.1 == k) = true := by simp [hk]
        simp [mapGet, mapDelete, List.filter_cons, List.find?_cons, h1, h2]
      · have h2 : (p.1 == k) = false := by simp [hk]
        simpa [mapGet, mapDelete, List.filter_cons, List.find?_cons, h1, h2] using ih

theorem mapDelete_comm (m : List (String × PendingCommand)) (k k' : String) :
    mapDelete (mapDelete m k) k' = mapDelete (mapDelete m k') k := by
  unfold mapDelete
  rw [List.filter_filter, List.filter_filter]
  apply List.filter_congr
  intro p _
  exact Bool.and_comm _ _

theorem filter_comm' {α : Type} (l : List α) (p q : α → Bool) :
    (l.filter p).filter q = (l.filter q).filter p := by
  rw [List.filter_filter, List.filter_filter]
  apply List.filter_congr
  intro a _
  exact Bool.and_comm _ _

theorem mapGet_find?_eq (m : List (String × PendingCommand)) (k : String) :
    mapGet m k = (m.find? (fun p => p.1 == k)).map (fun p => p.2) := rfl

theorem find?_of_mapGet_none (m : List (String × PendingCommand)) (k : String)
    (h : mapGet m k = none) : m.find? (fun p => p.1 == k) = none := by
  cases hf : m.find? (fun p => p.1 == k) with
  | none => rfl
  | some p => rw [mapGet_find?_eq, hf] at h; simp at h

theorem mapDelete_of_get_none (m : List (String × PendingCommand)) (k : String)
    (h : mapGet m k = none) : mapDelete m k = m := by
  have hfind := find?_of_mapGet_none m k h
  unfold mapDelete
  rw [List.filter_eq_self]
  intro p hp
  have := List.find?_eq_none.mp hfind p hp
  simpa using this

theorem mapSet_of_get_none (m : List (String × PendingCommand)) (k : String)
    (v : PendingCommand) (h : mapGet m k = none) : mapSet m k v = m ++ [(k, v)] := by
  have hfind := find?_of_mapGet_none m k h
  have hany : m.any (fun p => p.1 == k) = false := by
    rw [Bool.eq_false_iff]
    intro hc
    obtain ⟨x, hx, hpx⟩ := List.any_eq_true.mp hc
    exact (List.find?_eq_none.mp hfind x hx) hpx
  unfold mapSet
  rw [hany]
  simp

theorem mapGet_append_right (m : List (String × PendingCommand)) (k : String)
    (v : PendingCommand) (h : mapGet m k = none) : mapGet (m ++ [(k, v)]) k = some v := by
  have hfind := find?_of_mapGet_none m k h
  rw [mapGet_find?_eq, List.find?_append, hfind]
  simp [List.find?]

theorem mapGet_mapReplace (m : List (String × PendingCommand)) (k : String)
    (v : PendingCommand) (h : m.any (fun p => p.1 == k) = true) :
    mapGet (m.map (fun p => if p.1 == k then (k, v) else p)) k = some v := by
  induction m with
  | nil => simp at h
  | cons p rest ih =>
    by_cases hp : p.1 = k
    · simp [mapGet, List.find?_cons, hp]
    · have hrest : rest.any (fun p => p.1 == k) = true := by
        rcases List.any_eq_true.mp h with ⟨x, hx, hpx⟩
        rcases List.mem_cons.mp hx with hx' | hx'
        · rw [hx'] at hpx
          simp [hp] at hpx
        · exact List.any_eq_true.mpr ⟨x, hx', hpx⟩
      simpa [mapGet, List.find?_cons, hp] using ih hrest

theorem mapGet_mapSet_self (m : List (String × PendingCommand)) (k : String)
    (v : PendingCommand) : mapGet (mapSet m k v) k = some v := by
  unfold mapSet
  cases hany : m.any (fun p => p.1 == k) with
  | true => simpa [hany] using mapGet_mapReplace m k v hany
  | false =>
    have hget : mapGet m k = none := by
      rw [mapGet_find?_eq]
      cases hf : m.find? (fun p => p.1 == k) with
      | none => rfl
      | some p =>
        have hm := List.mem_of_find?_eq_some hf
        have hp := List.find?_some hf
        have : m.any (fun p => p.1 == k) = true := List.any_eq_true.mpr ⟨p, hm, hp⟩
        rw [hany] at this
        cases this
    simpa [hany] using mapGet_append_right m k v hget

/-- Events emitted by `handleResponse` depend only on the correlation table
and the response, not on the connection fields or timers. -/
theorem handleResponse_events_congr (s₁ s₂ : BridgeState) (r : PluginResponse)
    (h : s₁.pendingCommands = s₂.pendingCommands) :
    (handleResponse s₁ r).2 = (handleResponse s₂ r).2 := by
  obtain ⟨rid, rsucc, rres, rerr⟩ := r
  unfold handleResponse
  rw [h]
  cases mapGet s₂.pendingCommands rid with
  | none => rfl
  | some e => cases rsucc <;> cases rres <;> rfl

/-- Events emitted by a firing timer depend only on the timer list. -/
theorem fireTimeout_events_congr (s₁ s₂ : BridgeState) (c : Nat)
    (h : s₁.timers = s₂.timers) :
    (fireTimeout s₁ c).2 = (fireTimeout s₂ c).2 := by
  unfold fireTimeout
  rw [h]
  cases s₂.timers.find? (fun t => t.call == c) with
  | none => rfl
  | some t => rfl

/-! ### Claim theorems -/




/-- C2: `sendCommand` with no connected peer throws
`PluginNotConnectedError` before any state change: the whole state —
correlation table, timers, serial counter — is exactly as before the
call, and nothing is sent. -/
theorem sendCommand_not_connected (s : BridgeState) (ty id : String)
    (h : isConnected s = false) :
    sendCommand s ty id = (s, .thrown .notConnected, []) ∧
    (sendCommand s ty id).1.pendingCommands = s.pendingCommands ∧
    (sendCommand s ty id).1.timers = s.timers ∧
    (sendCommand s ty id).1.next = s.next := by
  unfold sendCommand
  rw [h]
  exact ⟨rfl, rfl, rfl, rfl⟩

theorem sendCommand_not_connected_witness :
    isConnected initState = false ∧
    sendCommand initState "CREATE_FRAME" "id-1" = (initState, .thrown .notConnected, []) :=
  ⟨by decide, (sendCommand_not_connected initState "CREATE_FRAME" "id-1" (by decide)).1⟩

/-- C4: `stop()` empties the correlation table, rejecting every entry (in
table order) with the fixed `'Plugin bridge stopped'` error — an error
distinct by construction from the NotConnected, Timeout and peer-reported
rejections — and cancels each entry's timer. -/
theorem stop_drains (s : BridgeState) :
    (stop s).1.pendingCommands = [] ∧
    (stop s).2 = (if s.wssUp then [Event.serverClose] else [])
        ++ s.pendingCommands.map (fun p => Event.settle p.2.call (.rejected .stopped)) ∧
    BridgeError.message .stopped = "Plugin bridge stopped" ∧
    (∀ ty ms, BridgeError.stopped ≠ BridgeError.timeout ty ms) ∧
    (∀ m, BridgeError.stopped ≠ BridgeError.peer m) ∧
    BridgeError.stopped ≠ BridgeError.notConnected ∧
    (∀ p ∈ s.pendingCommands,
      ((stop s).1.timers.all (fun t => t.call != p.2.call)) = true) := by
  refine ⟨rfl, rfl, rfl, ?_, ?_, ?_, ?_⟩
  · intro ty ms hc
    cases hc
  · intro m hc
    cases hc
  · intro hc
    cases hc
  intro p hp
  rw [List.all_eq_true]
  intro t ht
  have hmem : t ∈ s.timers ∧
      (!((s.pendingCommands.map (fun q => q.2.call)).contains t.call)) = true := by
    simpa [stop, List.mem_filter] using ht
  have hnotin : t.call ∉ s.pendingCommands.map (fun q => q.2.call) := by
    intro hin
    have : (s.pendingCommands.map (fun q => q.2.call)).contains t.call = true := by
      simpa [List.contains] using List.elem_iff.mpr hin
    rw [this] at hmem
    simpa using hmem.2
  have hin : p.2.call ∈ s.pendingCommands.map (fun q => q.2.call) :=
    List.mem_map.mpr ⟨p, hp, rfl⟩
  simp only [bne_iff_ne, ne_eq]
  intro hc
  exact hnotin (hc ▸ hin)


theorem stop_drains_witness :
    ("id-a", PendingCommand.mk 0) ∈ exTwoPending.pendingCommands ∧
    (stop exTwoPending).1.pendingCommands = [] ∧
    (stop exTwoPending).2 = [Event.serverClose,
      .settle 0 (.rejected .stopped), .settle 1 (.rejected .stopped)] ∧
    ((stop exTwoPending).1.timers.all (fun t => t.call != 0)) = true := by
  have h := stop_drains exTwoPending
  refine ⟨by decide, h.1, ?_, ?_⟩
  · rw [h.2.1]; decide
  · exact h.2.2.2.2.2.2 ("id-a", ⟨0⟩) (by decide)

/-- C6: a frame that fails JSON parsing is ignored (state unchanged, so the
connection is not terminated), and a parsed response whose id is not in
the correlation table is a no-op: `handleResponse` returns without any
state change or settlement. -/
theorem malformed_or_unknown_response_noop (s : BridgeState) (r : PluginResponse) :
    handleMessage s none = (s, []) ∧
    (mapGet s.pendingCommands r.id = none → handleMessage s (some r) = (s, [])) := by
  refine ⟨rfl, fun h => ?_⟩
  simp [handleMessage, handleResponse, h]

theorem malformed_or_unknown_response_noop_witness :
    handleMessage exTwoPending none = (exTwoPending, []) ∧
    mapGet exTwoPending.pendingCommands "id-zzz" = none ∧
    handleMessage exTwoPending (some ⟨"id-zzz", true, some (.nodeId "1:23"), none⟩)
      = (exTwoPending, []) :=
  ⟨(malformed_or_unknown_response_noop exTwoPending ⟨"id-zzz", true, some (.nodeId "1:23"), none⟩).1,
    by decide,
    (malformed_or_unknown_response_noop exTwoPending ⟨"id-zzz", true, some (.nodeId "1:23"), none⟩).2
      (by decide)⟩

/-- C5: a new peer connection while one is attached closes the old
connection first and attaches the new one (at most one peer addressable),
leaving the correlation table and every timer untouched, so pending
commands still settle by id match (identical `handleResponse` events) or
by their timers (identical `fireTimeout` events). -/
theorem handleConnection_replaces (s : BridgeState) (ws old : WSConn)
    (h : s.client = some old) :
    handleConnection s ws = ({ s with client := some ws }, [.closeConn old.cid]) ∧
    (handleConnection s ws).1.client = some ws ∧
    (handleConnection s ws).1.pendingCommands = s.pendingCommands ∧
    (handleConnection s ws).1.timers = s.timers ∧
    (∀ r, (handleResponse (handleConnection s ws).1 r).2 = (handleResponse s r).2) ∧
    (∀ c, (fireTimeout (handleConnection s ws).1 c).2 = (fireTimeout s c).2) := by
  have h1 : handleConnection s ws = ({ s with client := some ws }, [.closeConn old.cid]) := by
    unfold handleConnection
    rw [h]
  refine ⟨h1, by rw [h1], by rw [h1], by rw [h1], ?_, ?_⟩
  · intro r
    exact handleResponse_events_congr _ _ r (by rw [h1])
  · intro c
    exact fireTimeout_events_congr _ _ c (by rw [h1])

theorem handleConnection_replaces_witness :
    exTwoPending.client = some exConn ∧
    handleConnection exTwoPending ⟨9, wsOPEN⟩
      = ({ exTwoPending with client := some ⟨9, wsOPEN⟩ }, [.closeConn 7]) ∧
    (handleConnection exTwoPending ⟨9, wsOPEN⟩).1.pendingCommands
      = exTwoPending.pendingCommands :=
  ⟨by decide,
    (handleConnection_replaces exTwoPending ⟨9, wsOPEN⟩ exConn (by decide)).1,
    (handleConnection_replaces exTwoPending ⟨9, wsOPEN⟩ exConn (by decide)).2.2.1⟩



/-- C10 counterexample: a response with `success: true`, no `result`, and
`error: "boom"` on a matching pending id is rejected with `"boom"`
(`response.error || 'Unknown plugin error'`), not with the fixed
`'Unknown plugin error'` string the claim asserts; an empty `error`
string is falsy in JS, so there the fallback does apply. -/
theorem success_without_result_keeps_error_string :
    (PluginResponse.mk "id-a" true none (some "boom")).success = true ∧
    (PluginResponse.mk "id-a" true none (some "boom")).result = none ∧
    mapGet exOnePending.pendingCommands "id-a" = some ⟨0⟩ ∧
    (handleResponse exOnePending ⟨"id-a", true, none, some "boom"⟩).2
      = [.settle 0 (.rejected (.peer "boom"))] ∧
    (handleResponse exOnePending ⟨"id-a", true, none, some "boom"⟩).2
      ≠ [.settle 0 (.rejected (.peer "Unknown plugin error"))] ∧
    (handleResponse exOnePending ⟨"id-a", true, none, some ""⟩).2
      = [.settle 0 (.rejected (.peer "Unknown plugin error"))] := by
  decide

/-- C10 amended: a matched response resolves only when `success` is true
and `result` is present; with `success` true but no `result` it is
rejected through the same path as a peer-reported failure — with the
response's `error` string when it is present and non-empty (the JS
truthiness of `response.error || 'Unknown plugin error'`), and with
`'Unknown plugin error'` when `error` is absent or empty — and never
resolved. -/
theorem handleResponse_resolve_requires_result (s : BridgeState) (r : PluginResponse)
    (e : PendingCommand) (he : mapGet s.pendingCommands r.id = some e) :
    (∀ res, r.success = true → r.result = some res →
      (handleResponse s r).2 = [.settle e.call (.resolved res)]) ∧
    (∀ msg, r.success = true → r.result = none → r.error = some msg → msg ≠ "" →
      (handleResponse s r).2 = [.settle e.call (.rejected (.peer msg))]) ∧
    (r.success = true → r.result = none → (r.error = none ∨ r.error = some "") →
      (handleResponse s r).2
        = [.settle e.call (.rejected (.peer "Unknown plugin error"))]) ∧
    (r.success = false →
      (handleResponse s r).2
        = [.settle e.call (.rejected (.peer (jsOrString r.error "Unknown plugin error")))]) := by
  obtain ⟨rid, rsucc, rres, rerr⟩ := r
  refine ⟨?_, ?_, ?_, ?_⟩
  · intro res hs hr
    simp only at hs hr he
    subst hs hr
    simp [handleResponse, he]
  · intro msg hs hr herr hne
    simp only at hs hr herr he
    subst hs hr herr
    simp [handleResponse, he, jsOrString, hne]
  · intro hs hr herr
    simp only at hs hr he
    subst hs hr
    rcases herr with h | h <;>
      simp only at h <;>
      subst h <;>
      simp [handleResponse, he, jsOrString]
  · intro hs
    simp only at hs he
    subst hs
    cases rres <;> simp [handleResponse, he]

theorem handleResponse_resolve_requires_result_witness :
    mapGet exOnePending.pendingCommands "id-a" = some ⟨0⟩ ∧
    (handleResponse exOnePending ⟨"id-a", true, some (.nodeId "1:23"), none⟩).2
      = [.settle 0 (.resolved (.nodeId "1:23"))] ∧
    (handleResponse exOnePending ⟨"id-a", true, none, some "boom"⟩).2
      = [.settle 0 (.rejected (.peer "boom"))] ∧
    (handleResponse exOnePending ⟨"id-a", true, none, some ""⟩).2
      = [.settle 0 (.rejected (.peer "Unknown plugin error"))] ∧
    (handleResponse exOnePending ⟨"id-a", true, none, none⟩).2
      = [.settle 0 (.rejected (.peer "Unknown plugin error"))] :=
  ⟨by decide,
    (handleResponse_resolve_requires_result exOnePending
      ⟨"id-a", true, some (.nodeId "1:23"), none⟩ ⟨0⟩ (by decide)).1
      (.nodeId "1:23") rfl rfl,
    (handleResponse_resolve_requires_result exOnePending
      ⟨"id-a", true, none, some "boom"⟩ ⟨0⟩ (by decide)).2.1
      "boom" rfl rfl rfl (by decide),
    (handleResponse_resolve_requires_result exOnePending
      ⟨"id-a", true, none, some ""⟩ ⟨0⟩ (by decide)).2.2.1 rfl rfl (Or.inr rfl),
    (handleResponse_resolve_requires_result exOnePending
      ⟨"id-a", true, none, none⟩ ⟨0⟩ (by decide)).2.2.1 rfl rfl (Or.inl rfl)⟩

/-- C8 counterexample: `sendCommand` with an id that is already registered
does not leave the existing entry unchanged — JS `Map.set` silently
replaces it (call 0's entry becomes call 1's), so registration of a
colliding id is not a logged no-op. -/
theorem register_existing_id_overwrites :
    isConnected exOnePending = true ∧
    mapGet exOnePending.pendingCommands "id-a" = some ⟨0⟩ ∧
    exOnePending.next = 1 ∧
    mapGet (sendCommand exOnePending "DELETE_NODE" "id-a").1.pendingCommands "id-a"
      = some ⟨1⟩ ∧
    mapGet (sendCommand exOnePending "DELETE_NODE" "id-a").1.pendingCommands "id-a"
      ≠ some ⟨0⟩ := by
  decide

/-- C8 amended: registering an id that is already present replaces the
existing entry in place (the table maps the id to the new call); the old
entry's timer is not cancelled (the new timer is appended after it) and
the overwrite itself settles nothing, so the displaced continuation can
only ever be settled by its still-armed timer. -/
theorem sendCommand_collision_overwrites (s : BridgeState) (ty id : String)
    (e : PendingCommand) (hc : isConnected s = true)
    (_he : mapGet s.pendingCommands id = some e) :
    mapGet (sendCommand s ty id).1.pendingCommands id = some ⟨s.next⟩ ∧
    (sendCommand s ty id).1.timers
      = s.timers ++ [⟨s.next, id, ty, COMMAND_TIMEOUT_MS⟩] ∧
    ((sendCommand s ty id).2.2.all (fun ev => !(isSettleFor e.call ev))) = true := by
  unfold sendCommand
  rw [hc]
  refine ⟨?_, rfl, by simp [isSettleFor]⟩
  simpa using mapGet_mapSet_self s.pendingCommands id ⟨s.next⟩

theorem sendCommand_collision_overwrites_witness :
    mapGet (sendCommand exOnePending "DELETE_NODE" "id-a").1.pendingCommands "id-a"
      = some ⟨1⟩ ∧
    (sendCommand exOnePending "DELETE_NODE" "id-a").1.timers
      = [⟨0, "id-a", "CREATE_FRAME", 30000⟩, ⟨1, "id-a", "DELETE_NODE", 30000⟩] := by
  have h := sendCommand_collision_overwrites exOnePending "DELETE_NODE" "id-a" ⟨0⟩
    (by decide) (by decide)
  exact ⟨h.1, by rw [h.2.1]; decide⟩

/-- C9 counterexample: with a peer attached, `stop()` emits a `close()` on
the listener but never calls `close()` on the attached peer connection —
it only drops the reference (`this.client = null`).  So "stop() closes
the currently attached peer connection" fails on the code. -/
theorem stop_does_not_close_client :
    exConnState.client = some exConn ∧
    isConnected exConnState = true ∧
    (stop exConnState).1.client = none ∧
    Event.serverClose ∈ (stop exConnState).2 ∧
    ((stop exConnState).2.all (fun e => !(isCloseConn e))) = true := by
  decide

/-- C9 amended: `stop()` closes the listener and detaches the peer
reference (without a `close()` call on the peer), and it is idempotent:
a second `stop()` from the stopped state is a no-op — the state after it
is exactly the state after the first call (null server, null client,
empty correlation table, `isConnected` false), it emits no events and
raises no error. -/
theorem stop_idempotent (s : BridgeState) :
    stop (stop s).1 = ((stop s).1, []) ∧
    (stop s).1.wssUp = false ∧
    (stop s).1.client = none ∧
    (stop s).1.pendingCommands = [] ∧
    isConnected (stop s).1 = false ∧
    (s.wssUp = true → Event.serverClose ∈ (stop s).2) ∧
    (((stop s).2.all (fun e => !(isCloseConn e))) = true) := by
  refine ⟨?_, rfl, rfl, rfl, rfl, ?_, ?_⟩
  · unfold stop
    simp
  · intro hw
    unfold stop
    rw [hw]
    simp
  · unfold stop
    rw [List.all_eq_true]
    intro e he
    rcases List.mem_append.mp he with he | he
    · by_cases hw : s.wssUp
      · rw [hw] at he
        rcases List.mem_singleton.mp he with rfl
        rfl
      · simp [hw] at he
    · rcases List.mem_map.mp he with ⟨p, _, rfl⟩
      rfl

theorem stop_idempotent_witness :
    stop (stop exOnePending).1 = ((stop exOnePending).1, []) ∧
    exOnePending.wssUp = true ∧
    Event.serverClose ∈ (stop exOnePending).2 :=
  ⟨(stop_idempotent exOnePending).1, rfl,
    (stop_idempotent exOnePending).2.2.2.2.2.1 rfl⟩

/-- C3: a command sent while connected arms a timer with the fixed
30 000 ms window (`COMMAND_TIMEOUT_MS`; `sendCommand` takes no per-call
timeout).  If no matching response arrives and the timer fires, the
pending entry is removed from the correlation table, the timer is
disarmed, and the caller's promise is rejected with a
`PluginTimeoutError` whose message names the command type and
`30000ms`. -/
theorem timeout_fixed_window (s : BridgeState) (ty id : String)
    (hc : isConnected s = true)
    (hfresh : mapGet s.pendingCommands id = none)
    (htfresh : (s.timers.all (fun t => t.call != s.next)) = true) :
    (sendCommand s ty id).1.timers = s.timers ++ [⟨s.next, id, ty, 30000⟩] ∧
    mapGet (sendCommand s ty id).1.pendingCommands id = some ⟨s.next⟩ ∧
    (fireTimeout (sendCommand s ty id).1 s.next).1.pendingCommands = s.pendingCommands ∧
    mapGet (fireTimeout (sendCommand s ty id).1 s.next).1.pendingCommands id = none ∧
    (fireTimeout (sendCommand s ty id).1 s.next).1.timers = s.timers ∧
    (fireTimeout (sendCommand s ty id).1 s.next).2
      = [.settle s.next (.rejected (.timeout ty 30000))] ∧
    BridgeError.message (.timeout ty 30000)
      = "Plugin command " ++ "'" ++ ty ++ "'" ++ " timed out after "
          ++ "30000" ++ "ms" := by
  have hsend : sendCommand s ty id
      = ({ s with
            timers := s.timers ++ [⟨s.next, id, ty, COMMAND_TIMEOUT_MS⟩],
            pendingCommands := s.pendingCommands ++ [(id, ⟨s.next⟩)],
            next := s.next + 1 },
          .sent s.next, [.sentCmd s.next ty id]) := by
    simp [sendCommand, hc, mapSet_of_get_none _ _ _ hfresh]
  have hfindnone : s.timers.find? (fun t => t.call == s.next) = none := by
    rw [List.find?_eq_none]
    intro t ht
    have := List.all_eq_true.mp htfresh t ht
    simpa using this
  have hfind : (s.timers ++ [(⟨s.next, id, ty, COMMAND_TIMEOUT_MS⟩ : Timer)]).find?
      (fun t => t.call == s.next) = some ⟨s.next, id, ty, COMMAND_TIMEOUT_MS⟩ := by
    rw [List.find?_append, hfindnone]
    simp [List.find?]
  have hfire : fireTimeout (sendCommand s ty id).1 s.next
      = ({ (sendCommand s ty id).1 with
            timers := ((sendCommand s ty id).1.timers).filter (fun u => u.call != s.next),
            pendingCommands := mapDelete ((sendCommand s ty id).1.pendingCommands) id },
          [.settle s.next (.rejected (.timeout ty COMMAND_TIMEOUT_MS))]) := by
    unfold fireTimeout
    rw [hsend]
    simp only [hfind]
  have hpend : mapDelete ((sendCommand s ty id).1.pendingCommands) id
      = s.pendingCommands := by
    rw [hsend]
    simp only [mapDelete, List.filter_append]
    rw [← mapDelete, mapDelete_of_get_none _ _ hfresh]
    simp
  have htim : ((sendCommand s ty id).1.timers).filter (fun u => u.call != s.next)
      = s.timers := by
    rw [hsend]
    simp only [List.filter_append]
    rw [List.filter_eq_self.mpr (fun t ht => List.all_eq_true.mp htfresh t ht)]
    simp
  refine ⟨?_, ?_, ?_, ?_, ?_, ?_, rfl⟩
  · rw [hsend]
    rfl
  · rw [hsend]
    simpa using mapGet_append_right _ _ _ hfresh
  · rw [hfire]
    exact hpend
  · rw [hfire]
    simp only [hpend]
    exact hfresh
  · rw [hfire]
    exact htim
  · rw [hfire]
    rfl

theorem timeout_fixed_window_witness :
    isConnected exConnState = true ∧
    (fireTimeout (sendCommand exConnState "DELETE_NODE" "id-x").1 0).2
      = [.settle 0 (.rejected (.timeout "DELETE_NODE" 30000))] ∧
    BridgeError.message (.timeout "DELETE_NODE" 30000)
      = "Plugin command " ++ "'" ++ "DELETE_NODE" ++ "'" ++ " timed out after "
          ++ "30000" ++ "ms" :=
  ⟨by decide,
    (timeout_fixed_window exConnState "DELETE_NODE" "id-x" (by decide) (by decide)
      (by decide)).2.2.2.2.2.1,
    (timeout_fixed_window exConnState "DELETE_NODE" "id-x" (by decide) (by decide)
      (by decide)).2.2.2.2.2.2⟩


theorem handleResponse_state_char (s : BridgeState) (r : PluginResponse) :
    (mapGet s.pendingCommands r.id = none → handleResponse s r = (s, [])) ∧
    (∀ e, mapGet s.pendingCommands r.id = some e →
      handleResponse s r
        = ({ s with
              timers := s.timers.filter (fun t => t.call != e.call),
              pendingCommands := mapDelete s.pendingCommands r.id },
            [.settle e.call (respOutcome r)])) := by
  obtain ⟨rid, rsucc, rres, rerr⟩ := r
  constructor
  · intro h
    simp only at h
    simp [handleResponse, h]
  · intro e he
    simp only at he
    cases rsucc <;> cases rres <;> simp [handleResponse, respOutcome, he]

/-- C7: response handling is order-independent.  For two responses with
distinct ids, delivering them in either order yields the same final
bridge state, and each response produces exactly the settlement events it
would produce delivered first — each pending entry's outcome depends only
on the response bearing its id, not on arrival order. -/
theorem handleResponse_order_independent (s : BridgeState) (ra rb : PluginResponse)
    (h : ra.id ≠ rb.id) :
    (handleResponse (handleResponse s rb).1 ra).1
      = (handleResponse (handleResponse s ra).1 rb).1 ∧
    (handleResponse (handleResponse s rb).1 ra).2 = (handleResponse s ra).2 ∧
    (handleResponse (handleResponse s ra).1 rb).2 = (handleResponse s rb).2 := by
  cases hb : mapGet s.pendingCommands rb.id with
  | none =>
    have hrb : handleResponse s rb = (s, []) := (handleResponse_state_char s rb).1 hb
    cases ha : mapGet s.pendingCommands ra.id with
    | none =>
      have hra : handleResponse s ra = (s, []) := (handleResponse_state_char s ra).1 ha
      have hb2 : mapGet (handleResponse s ra).1.pendingCommands rb.id = none := by
        rw [hra]
        exact hb
      have hrb2 : handleResponse (handleResponse s ra).1 rb = ((handleResponse s ra).1, []) :=
        (handleResponse_state_char (handleResponse s ra).1 rb).1 hb2
      rw [hrb, hrb2, hra]
      exact ⟨rfl, rfl, rfl⟩
    | some ea =>
      have hra : handleResponse s ra
          = ({ s with
                timers := s.timers.filter (fun t => t.call != ea.call),
                pendingCommands := mapDelete s.pendingCommands ra.id },
              [.settle ea.call (respOutcome ra)]) :=
        (handleResponse_state_char s ra).2 ea ha
      have hb2 : mapGet (handleResponse s ra).1.pendingCommands rb.id = none := by
        rw [hra]
        simpa using (mapGet_mapDelete_ne s.pendingCommands rb.id ra.id (Ne.symm h)).trans hb
      have hrb2 : handleResponse (handleResponse s ra).1 rb = ((handleResponse s ra).1, []) :=
        (handleResponse_state_char (handleResponse s ra).1 rb).1 hb2
      rw [hrb, hrb2]
      exact ⟨rfl, rfl, rfl⟩
  | some eb =>
    have hrb : handleResponse s rb
        = ({ s with
              timers := s.timers.filter (fun t => t.call != eb.call),
              pendingCommands := mapDelete s.pendingCommands rb.id },
            [.settle eb.call (respOutcome rb)]) :=
      (handleResponse_state_char s rb).2 eb hb
    cases ha : mapGet s.pendingCommands ra.id with
    | none =>
      have hra : handleResponse s ra = (s, []) := (handleResponse_state_char s ra).1 ha
      have ha2 : mapGet (handleResponse s rb).1.pendingCommands ra.id = none := by
        rw [hrb]
        simpa using (mapGet_mapDelete_ne s.pendingCommands ra.id rb.id h).trans ha
      have hra2 : handleResponse (handleResponse s rb).1 ra = ((handleResponse s rb).1, []) :=
        (handleResponse_state_char (handleResponse s rb).1 ra).1 ha2
      have hb2 : mapGet (handleResponse s ra).1.pendingCommands rb.id = some eb := by
        rw [hra]
        exact hb
      have hrb2 : handleResponse (handleResponse s ra).1 rb
          = ({ (handleResponse s ra).1 with
                timers := (handleResponse s ra).1.timers.filter (fun t => t.call != eb.call),
                pendingCommands := mapDelete (handleResponse s ra).1.pendingCommands rb.id },
              [.settle eb.call (respOutcome rb)]) :=
        (handleResponse_state_char (handleResponse s ra).1 rb).2 eb hb2
      rw [hra2, hrb2, hra, hrb]
      exact ⟨rfl, rfl, rfl⟩
    | some ea =>
      have hra : handleResponse s ra
          = ({ s with
                timers := s.timers.filter (fun t => t.call != ea.call),
                pendingCommands := mapDelete s.pendingCommands ra.id },
              [.settle ea.call (respOutcome ra)]) :=
        (handleResponse_state_char s ra).2 ea ha
      have ha2 : mapGet (handleResponse s rb).1.pendingCommands ra.id = some ea := by
        rw [hrb]
        simpa using (mapGet_mapDelete_ne s.pendingCommands ra.id rb.id h).trans ha
      have hb2 : mapGet (handleResponse s ra).1.pendingCommands rb.id = some eb := by
        rw [hra]
        simpa using (mapGet_mapDelete_ne s.pendingCommands rb.id ra.id (Ne.symm h)).trans hb
      have hra2 := (handleResponse_state_char (handleResponse s rb).1 ra).2 ea ha2
      have hrb2 := (handleResponse_state_char (handleResponse s ra).1 rb).2 eb hb2
      refine ⟨?_, ?_, ?_⟩
      · rw [hra2, hrb2, hra, hrb]
        simp only []
        rw [filter_comm' s.timers (fun t => t.call != eb.call) (fun t => t.call != ea.call),
          mapDelete_comm s.pendingCommands rb.id ra.id]
      · rw [hra2, hra]
      · rw [hrb2, hrb]

theorem handleResponse_order_independent_witness :
    ("id-a" : String) ≠ "id-b" ∧
    (handleResponse (handleResponse exTwoPending ⟨"id-b", true, some (.nodeId "9:9"), none⟩).1
        ⟨"id-a", true, some (.nodeId "1:23"), none⟩).1
      = (handleResponse (handleResponse exTwoPending ⟨"id-a", true, some (.nodeId "1:23"), none⟩).1
        ⟨"id-b", true, some (.nodeId "9:9"), none⟩).1 ∧
    (handleResponse (handleResponse exTwoPending ⟨"id-b", true, some (.nodeId "9:9"), none⟩).1
        ⟨"id-a", true, some (.nodeId "1:23"), none⟩).2
      = (handleResponse exTwoPending ⟨"id-a", true, some (.nodeId "1:23"), none⟩).2 :=
  ⟨by decide,
    (handleResponse_order_independent exTwoPending
      ⟨"id-a", true, some (.nodeId "1:23"), none⟩
      ⟨"id-b", true, some (.nodeId "9:9"), none⟩ (by decide)).1,
    (handleResponse_order_independent exTwoPending
      ⟨"id-a", true, some (.nodeId "1:23"), none⟩
      ⟨"id-b", true, some (.nodeId "9:9"), none⟩ (by decide)).2.1⟩

/-! ### Exactly-once settlement (C1): ghost correlation records

A ghost record `(id, call, cmdType)` abstracts one registered in-flight
command; the invariant ties the table and the armed timers to a single
ghost list and tracks which calls the trace has settled. -/











theorem mapGet_ghost (l : List GhostEntry) (k : String) :
    mapGet (l.map entryOf) k
      = (l.find? (fun m => m.1 == k)).map (fun m => (⟨m.2.1⟩ : PendingCommand)) := by
  unfold mapGet
  rw [List.find?_map, Option.map_map]
  rfl

theorem find?_timer_ghost (l : List GhostEntry) (c : Nat) :
    (l.map timerOf).find? (fun t => t.call == c)
      = (l.find? (fun m => m.2.1 == c)).map timerOf := by
  rw [List.find?_map]
  rfl

theorem filter_timer_ghost (l : List GhostEntry) (c : Nat) :
    (l.map timerOf).filter (fun t => t.call != c)
      = (l.filter (fun m => m.2.1 != c)).map timerOf := by
  rw [List.filter_map]
  rfl

theorem mapDelete_ghost (l : List GhostEntry) (k : String) :
    mapDelete (l.map entryOf) k = (l.filter (fun m => m.1 != k)).map entryOf := by
  unfold mapDelete
  rw [List.filter_map]
  rfl

/-- With ids and calls separately duplicate-free, deleting by the matched
id removes exactly the records the timer-side delete by call removes. -/
theorem filter_id_eq_filter_call (l : List GhostEntry)
    (hids : (ghostIds l).Nodup) (hcalls : (ghostCalls l).Nodup)
    (m₀ : GhostEntry) (hm₀ : m₀ ∈ l) :
    l.filter (fun m => m.1 != m₀.1) = l.filter (fun m => m.2.1 != m₀.2.1) := by
  apply List.filter_congr
  intro m hmem
  by_cases hid : m.1 = m₀.1
  · have hm : m = m₀ :=
      List.inj_on_of_nodup_map hids hmem hm₀ hid
    simp [hid, hm]
  · by_cases hcall : m.2.1 = m₀.2.1
    · have hm : m = m₀ :=
        List.inj_on_of_nodup_map hcalls hmem hm₀ hcall
      exact absurd (congrArg (fun x : GhostEntry => x.1) hm) hid
    · have h1 : (m.1 != m₀.1) = true := by simpa using hid
      have h2 : (m.2.1 != m₀.2.1) = true := by simpa using hcall
      rw [h1, h2]

theorem settleCount_settle_single (c : Nat) (o : Outcome) (k : Nat) :
    settleCount [Event.settle c o] k = if c = k then 1 else 0 := by
  by_cases h : c = k
  · subst h
    simp [settleCount, isSettleFor]
  · have hb : (c == k) = false := by simp [h]
    simp [settleCount, isSettleFor, hb, h]

theorem settleCount_sentCmd (c : Nat) (ty id : String) (k : Nat) :
    settleCount [Event.sentCmd c ty id] k = 0 := rfl

theorem settleCount_closeConn (cid k : Nat) :
    settleCount [Event.closeConn cid] k = 0 := rfl

theorem settleCount_serverClose (k : Nat) :
    settleCount [Event.serverClose] k = 0 := rfl

theorem settleCount_settleMap (l : List GhostEntry) (k : Nat) :
    settleCount (l.map (fun m => Event.settle m.2.1 (.rejected .stopped))) k
      = List.count k (ghostCalls l) := by
  unfold settleCount ghostCalls
  rw [List.filter_map, List.length_map, List.count, List.countP_map,
    ← List.countP_eq_length_filter]
  apply List.countP_congr
  intro m _
  simp [isSettleFor, Function.comp]




theorem ghostCalls_filter_subset (l : List GhostEntry) (q : GhostEntry → Bool) (k : Nat)
    (h : k ∈ ghostCalls (l.filter q)) : k ∈ ghostCalls l := by
  rcases List.mem_map.mp h with ⟨m, hmf, rfl⟩
  exact List.mem_map.mpr ⟨m, (List.mem_filter.mp hmf).1, rfl⟩

theorem mem_ghostCalls_filter_ne (l : List GhostEntry) (c k : Nat) (hne : k ≠ c)
    (h : k ∈ ghostCalls l) : k ∈ ghostCalls (l.filter (fun m => m.2.1 != c)) := by
  rcases List.mem_map.mp h with ⟨m, hmem, rfl⟩
  refine List.mem_map.mpr ⟨m, List.mem_filter.mpr ⟨hmem, ?_⟩, rfl⟩
  simpa using hne

theorem not_mem_ghostCalls_filter_self (l : List GhostEntry) (c : Nat) :
    c ∉ ghostCalls (l.filter (fun m => m.2.1 != c)) := by
  intro hin
  rcases List.mem_map.mp hin with ⟨m, hmf, hcall⟩
  have := (List.mem_filter.mp hmf).2
  rw [hcall] at this
  simp at this

/-- Steps that touch neither the table, the timers, nor the counter, and
settle nothing, preserve the invariant. -/
theorem inv_of_eq (s s' : BridgeState) (tr evs : List Event) (l : List GhostEntry)
    (hm : InvMeta s tr l)
    (hpend : s'.pendingCommands = s.pendingCommands)
    (htims : s'.timers = s.timers)
    (hnext : s'.next = s.next)
    (hevs : ∀ k, settleCount evs k = 0) :
    InvMeta s' (tr ++ evs) l := by
  refine ⟨?_, ?_, hm.idsNodup, hm.callsNodup, ?_, ?_, ?_, ?_⟩
  · rw [hpend, hm.pend]
  · rw [htims, hm.tims]
  · intro m hmem
    rw [hnext]
    exact hm.callsLt m hmem
  · intro k
    rw [settleCount_append, hevs k]
    simpa using hm.once k
  · intro k hk
    rw [hnext] at hk
    rw [settleCount_append, hevs k]
    simpa using hm.part k hk
  · intro k hk
    rw [hnext] at hk
    rw [settleCount_append, hevs k]
    simpa using hm.high k hk

/-- Settling one registered command — removing its table entry by id,
clearing its timer by call, and emitting one settlement — preserves the
invariant with that ghost record removed. -/
theorem inv_settle (s s' : BridgeState) (tr : List Event) (l : List GhostEntry)
    (m₀ : GhostEntry) (o : Outcome)
    (hm : InvMeta s tr l) (hmem : m₀ ∈ l)
    (hpend : s'.pendingCommands = mapDelete s.pendingCommands m₀.1)
    (htims : s'.timers = s.timers.filter (fun t => t.call != m₀.2.1))
    (hnext : s'.next = s.next) :
    InvMeta s' (tr ++ [.settle m₀.2.1 o]) (l.filter (fun m => m.2.1 != m₀.2.1)) := by
  have hc_lt : m₀.2.1 < s.next := hm.callsLt m₀ hmem
  have hc_mem : m₀.2.1 ∈ ghostCalls l := List.mem_map.mpr ⟨m₀, hmem, rfl⟩
  have hc_count0 : settleCount tr m₀.2.1 = 0 := by
    rcases hm.part m₀.2.1 hc_lt with ⟨_, h2⟩ | ⟨h1, _⟩
    · exact absurd hc_mem h2
    · exact h1
  refine ⟨?_, ?_, ?_, ?_, ?_, ?_, ?_, ?_⟩
  · rw [hpend, hm.pend, mapDelete_ghost,
      filter_id_eq_filter_call l hm.idsNodup hm.callsNodup m₀ hmem]
  · rw [htims, hm.tims, filter_timer_ghost]
  · exact List.Nodup.sublist (List.Sublist.map _ (List.filter_sublist l)) hm.idsNodup
  · exact List.Nodup.sublist (List.Sublist.map _ (List.filter_sublist l)) hm.callsNodup
  · intro m hmf
    rw [hnext]
    exact hm.callsLt m (List.mem_filter.mp hmf).1
  · intro k
    rw [settleCount_append, settleCount_settle_single]
    by_cases hk : m₀.2.1 = k
    · subst hk
      rw [hc_count0]
      simp
    · rw [if_neg hk, Nat.add_zero]
      exact hm.once k
  · intro k hk
    rw [hnext] at hk
    rw [settleCount_append, settleCount_settle_single]
    by_cases hck : m₀.2.1 = k
    · subst hck
      left
      rw [hc_count0]
      exact ⟨by simp, not_mem_ghostCalls_filter_self l m₀.2.1⟩
    · rw [if_neg hck, Nat.add_zero]
      rcases hm.part k hk with ⟨h1, h2⟩ | ⟨h1, h2⟩
      · left
        exact ⟨h1, fun hin => h2 (ghostCalls_filter_subset l _ k hin)⟩
      · right
        exact ⟨h1, mem_ghostCalls_filter_ne l m₀.2.1 k (fun h => hck h.symm) h2⟩
  · intro k hk
    rw [hnext] at hk
    rw [settleCount_append, settleCount_settle_single]
    have hck : m₀.2.1 ≠ k := Nat.ne_of_lt (Nat.lt_of_lt_of_le hc_lt hk)
    rw [if_neg hck, Nat.add_zero]
    exact ⟨(hm.high k hk).1,
      fun hin => (hm.high k hk).2 (ghostCalls_filter_subset l _ k hin)⟩

/-- A connected send with a fresh id appends one ghost record and settles
nothing. -/
theorem inv_send (s : BridgeState) (tr : List Event) (l : List GhostEntry)
    (ty id : String) (hm : InvMeta s tr l) (hc : isConnected s = true)
    (hfresh : mapGet s.pendingCommands id = none) :
    InvMeta (sendCommand s ty id).1 (tr ++ (sendCommand s ty id).2.2)
      (l ++ [(id, s.next, ty)]) := by
  have hsend1 : (sendCommand s ty id).1 = { s with
      timers := s.timers ++ [⟨s.next, id, ty, COMMAND_TIMEOUT_MS⟩],
      pendingCommands := s.pendingCommands ++ [(id, ⟨s.next⟩)],
      next := s.next + 1 } := by
    simp [sendCommand, hc, mapSet_of_get_none _ _ _ hfresh]
  have hsend2 : (sendCommand s ty id).2.2 = [.sentCmd s.next ty id] := by
    simp [sendCommand, hc]
  have hgfind : l.find? (fun m => m.1 == id) = none := by
    have hfr := hfresh
    rw [hm.pend, mapGet_ghost] at hfr
    cases hfind : l.find? (fun m => m.1 == id) with
    | none => rfl
    | some m =>
      rw [hfind] at hfr
      simp at hfr
  have hid_not : id ∉ ghostIds l := by
    intro hin
    rcases List.mem_map.mp hin with ⟨m, hmem, hfid⟩
    exact (List.find?_eq_none.mp hgfind m hmem) (by simp [hfid])
  have hnext_not : s.next ∉ ghostCalls l := by
    intro hin
    rcases List.mem_map.mp hin with ⟨m, hmem, hcall⟩
    have := hm.callsLt m hmem
    rw [hcall] at this
    exact absurd this (lt_irrefl _)
  have hcalls_app : ghostCalls (l ++ [(id, s.next, ty)]) = ghostCalls l ++ [s.next] := by
    unfold ghostCalls
    rw [List.map_append]
    rfl
  refine ⟨?_, ?_, ?_, ?_, ?_, ?_, ?_, ?_⟩
  · rw [hsend1]
    show s.pendingCommands ++ [(id, ⟨s.next⟩)] = _
    rw [hm.pend, List.map_append]
    rfl
  · rw [hsend1]
    show s.timers ++ [⟨s.next, id, ty, COMMAND_TIMEOUT_MS⟩] = _
    rw [hm.tims, List.map_append]
    rfl
  · show (ghostIds (l ++ [(id, s.next, ty)])).Nodup
    unfold ghostIds
    rw [List.map_append]
    simp only [List.map_cons, List.map_nil]
    rw [List.nodup_append]
    refine ⟨hm.idsNodup, List.nodup_singleton _, ?_⟩
    intro a ha hb
    rw [List.mem_singleton] at hb
    subst hb
    exact hid_not ha
  · rw [hcalls_app, List.nodup_append]
    refine ⟨hm.callsNodup, List.nodup_singleton _, ?_⟩
    intro a ha hb
    rw [List.mem_singleton] at hb
    subst hb
    exact hnext_not ha
  · intro m hmem
    rw [hsend1]
    show m.2.1 < s.next + 1
    rcases List.mem_append.mp hmem with h | h
    · exact Nat.lt_succ_of_lt (hm.callsLt m h)
    · rw [List.mem_singleton] at h
      subst h
      exact Nat.lt_succ_self _
  · intro k
    rw [hsend2, settleCount_append, settleCount_sentCmd, Nat.add_zero]
    exact hm.once k
  · intro k hk
    rw [hsend1] at hk
    have hk' : k < s.next + 1 := hk
    rw [hsend2, settleCount_append, settleCount_sentCmd, Nat.add_zero, hcalls_app]
    by_cases hk2 : k < s.next
    · rcases hm.part k hk2 with ⟨h1, h2⟩ | ⟨h1, h2⟩
      · left
        refine ⟨h1, ?_⟩
        intro hin
        rcases List.mem_append.mp hin with h | h
        · exact h2 h
        · rw [List.mem_singleton] at h
          omega
      · right
        exact ⟨h1, List.mem_append.mpr (Or.inl h2)⟩
    · have hkeq : k = s.next := by omega
      right
      rw [hkeq]
      exact ⟨(hm.high s.next (Nat.le_refl _)).1,
        List.mem_append.mpr (Or.inr (List.mem_singleton.mpr rfl))⟩
  · intro k hk
    rw [hsend1] at hk
    have hk' : s.next + 1 ≤ k := hk
    have hkle : s.next ≤ k := by omega
    rw [hsend2, settleCount_append, settleCount_sentCmd, Nat.add_zero, hcalls_app]
    refine ⟨(hm.high k hkle).1, ?_⟩
    intro hin
    rcases List.mem_append.mp hin with h | h
    · exact (hm.high k hkle).2 h
    · rw [List.mem_singleton] at h
      omega

/-- `stop()` settles every registered command exactly once and empties the
table and the timers. -/
theorem inv_stop (s : BridgeState) (tr : List Event) (l : List GhostEntry)
    (hm : InvMeta s tr l) :
    InvMeta (stop s).1 (tr ++ (stop s).2) [] := by
  have htims0 : (stop s).1.timers = [] := by
    show (s.timers.filter
      (fun t => !((s.pendingCommands.map (fun p => p.2.call)).contains t.call))) = []
    rw [List.filter_eq_nil_iff]
    intro t ht
    rw [hm.tims] at ht
    rcases List.mem_map.mp ht with ⟨m, hmem, rfl⟩
    have hcall_mem : (timerOf m).call ∈ s.pendingCommands.map (fun p => p.2.call) := by
      rw [hm.pend, List.map_map]
      exact List.mem_map.mpr ⟨m, hmem, rfl⟩
    have : (s.pendingCommands.map (fun p => p.2.call)).contains (timerOf m).call = true := by
      simpa [List.contains] using List.elem_iff.mpr hcall_mem
    rw [this]
    simp
  have hmapev : s.pendingCommands.map (fun p => Event.settle p.2.call (.rejected .stopped))
      = l.map (fun m => Event.settle m.2.1 (.rejected .stopped)) := by
    rw [hm.pend, List.map_map]
    rfl
  have hcount : ∀ k, settleCount (stop s).2 k = List.count k (ghostCalls l) := by
    intro k
    show settleCount ((if s.wssUp then [Event.serverClose] else [])
      ++ s.pendingCommands.map (fun p => Event.settle p.2.call (.rejected .stopped))) k = _
    rw [settleCount_append, hmapev, settleCount_settleMap]
    by_cases hw : s.wssUp
    · rw [if_pos hw, settleCount_serverClose, Nat.zero_add]
    · rw [if_neg hw, settleCount_nil, Nat.zero_add]
  have hcle : ∀ k, List.count k (ghostCalls l) ≤ 1 :=
    List.nodup_iff_count_le_one.mp hm.callsNodup
  refine ⟨rfl, by rw [htims0]; rfl, List.nodup_nil, List.nodup_nil, ?_, ?_, ?_, ?_⟩
  · intro m hmem
    exact absurd hmem (List.not_mem_nil m)
  · intro k
    rw [settleCount_append, hcount]
    by_cases hk : k < s.next
    · rcases hm.part k hk with ⟨h1, h2⟩ | ⟨h1, h2⟩
      · rw [h1, List.count_eq_zero_of_not_mem h2]
      · rw [h1, Nat.zero_add]
        exact hcle k
    · have := hm.high k (Nat.le_of_not_lt hk)
      rw [this.1, List.count_eq_zero_of_not_mem this.2]
      omega
  · intro k hk
    have hk' : k < s.next := hk
    rw [settleCount_append, hcount]
    left
    refine ⟨?_, by simp [ghostCalls]⟩
    rcases hm.part k hk' with ⟨h1, h2⟩ | ⟨h1, h2⟩
    · rw [h1, List.count_eq_zero_of_not_mem h2]
    · rw [h1, Nat.zero_add]
      have h3 : 0 < List.count k (ghostCalls l) := List.count_pos_iff.mpr h2
      have h4 := hcle k
      omega

  · intro k hk
    have hk' : s.next ≤ k := hk
    rw [settleCount_append, hcount]
    have := hm.high k hk'
    rw [this.1, List.count_eq_zero_of_not_mem this.2]
    exact ⟨rfl, by simp [ghostCalls]⟩

/-- Every step of the bridge preserves the invariant, provided sends use
ids not currently registered. -/
theorem inv_exec (s : BridgeState) (tr : List Event) (a : Action)
    (hinv : Inv s tr)
    (hfr : ∀ ty id, a = .send ty id → mapGet s.pendingCommands id = none) :
    Inv (exec s a).1 (tr ++ (exec s a).2) := by
  obtain ⟨l, hm⟩ := hinv
  cases a with
  | connect ws =>
    cases hc : s.client with
    | none =>
      have he : exec s (.connect ws) = ({ s with client := some ws }, []) := by
        simp [exec, handleConnection, hc]
      rw [he]
      exact ⟨l, inv_of_eq s _ tr _ l hm rfl rfl rfl (fun k => rfl)⟩
    | some old =>
      have he : exec s (.connect ws)
          = ({ s with client := some ws }, [.closeConn old.cid]) := by
        simp [exec, handleConnection, hc]
      rw [he]
      exact ⟨l, inv_of_eq s _ tr _ l hm rfl rfl rfl
        (fun k => settleCount_closeConn old.cid k)⟩
  | close cid =>
    have h1 : (handleClose s cid).pendingCommands = s.pendingCommands := by
      unfold handleClose
      cases s.client with
      | none => rfl
      | some c =>
        dsimp only
        split <;> rfl
    have h2 : (handleClose s cid).timers = s.timers := by
      unfold handleClose
      cases s.client with
      | none => rfl
      | some c =>
        dsimp only
        split <;> rfl
    have h3 : (handleClose s cid).next = s.next := by
      unfold handleClose
      cases s.client with
      | none => rfl
      | some c =>
        dsimp only
        split <;> rfl
    exact ⟨l, inv_of_eq s _ tr _ l hm h1 h2 h3 (fun k => rfl)⟩
  | message f =>
    cases f with
    | none =>
      exact ⟨l, inv_of_eq s _ tr _ l hm rfl rfl rfl (fun k => rfl)⟩
    | some r =>
      cases hg : mapGet s.pendingCommands r.id with
      | none =>
        have he : exec s (.message (some r)) = (s, []) := by
          show handleResponse s r = (s, [])
          exact (handleResponse_state_char s r).1 hg
        rw [he]
        exact ⟨l, inv_of_eq s s tr [] l hm rfl rfl rfl (fun k => rfl)⟩
      | some e =>
        have he : exec s (.message (some r))
            = ({ s with
                  timers := s.timers.filter (fun t => t.call != e.call),
                  pendingCommands := mapDelete s.pendingCommands r.id },
                [.settle e.call (respOutcome r)]) := by
          show handleResponse s r = _
          exact (handleResponse_state_char s r).2 e hg
        have hg' := hg
        rw [hm.pend, mapGet_ghost] at hg'
        cases hfind : l.find? (fun m => m.1 == r.id) with
        | none =>
          rw [hfind] at hg'
          simp at hg'
        | some m₀ =>
          rw [hfind] at hg'
          simp at hg'
          have hmem : m₀ ∈ l := List.mem_of_find?_eq_some hfind
          have hid : m₀.1 = r.id := by simpa using List.find?_some hfind
          have hcall : e.call = m₀.2.1 := by rw [← hg']
          rw [hcall] at he
          rw [he]
          refine ⟨l.filter (fun m => m.2.1 != m₀.2.1), ?_⟩
          exact inv_settle s
            ({ s with
                timers := s.timers.filter (fun t => t.call != m₀.2.1),
                pendingCommands := mapDelete s.pendingCommands r.id })
            tr l m₀ (respOutcome r) hm hmem (by rw [hid]) rfl rfl
  | fire c =>
    cases hfind : s.timers.find? (fun t => t.call == c) with
    | none =>
      have he : exec s (.fire c) = (s, []) := by
        show fireTimeout s c = (s, [])
        unfold fireTimeout
        rw [hfind]
      rw [he]
      exact ⟨l, inv_of_eq s s tr [] l hm rfl rfl rfl (fun k => rfl)⟩
    | some t =>
      have hf2 := hfind
      rw [hm.tims, find?_timer_ghost] at hf2
      cases hfg : l.find? (fun m => m.2.1 == c) with
      | none =>
        rw [hfg] at hf2
        simp at hf2
      | some m₀ =>
        rw [hfg] at hf2
        simp at hf2
        have hmem : m₀ ∈ l := List.mem_of_find?_eq_some hfg
        have he : exec s (.fire c)
            = ({ s with
                  timers := s.timers.filter (fun u => u.call != t.call),
                  pendingCommands := mapDelete s.pendingCommands t.id },
                [.settle t.call (.rejected (.timeout t.cmdType t.delayMs))]) := by
          show fireTimeout s c = _
          unfold fireTimeout
          rw [hfind]
        rw [← hf2] at he
        rw [he]
        refine ⟨l.filter (fun m => m.2.1 != m₀.2.1), ?_⟩
        exact inv_settle s
          ({ s with
              timers := s.timers.filter (fun u => u.call != (timerOf m₀).call),
              pendingCommands := mapDelete s.pendingCommands (timerOf m₀).id })
          tr l m₀ (.rejected (.timeout (timerOf m₀).cmdType (timerOf m₀).delayMs))
          hm hmem rfl rfl rfl
  | send ty id =>
    have hfresh : mapGet s.pendingCommands id = none := hfr ty id rfl
    cases hc : isConnected s with
    | false =>
      have he : exec s (.send ty id) = (s, []) := by
        simp [exec, sendCommand, hc]
      rw [he]
      exact ⟨l, inv_of_eq s s tr [] l hm rfl rfl rfl (fun k => rfl)⟩
    | true =>
      have he : exec s (.send ty id)
          = ((sendCommand s ty id).1, (sendCommand s ty id).2.2) := rfl
      rw [he]
      exact ⟨l ++ [(id, s.next, ty)], inv_send s tr l ty id hm hc hfresh⟩
  | stop =>
    exact ⟨[], inv_stop s tr l hm⟩

/-- Running any action sequence from an invariant state keeps the
invariant, provided all sends use fresh ids. -/
theorem inv_execAll (as : List Action) :
    ∀ (s : BridgeState) (tr : List Event), Inv s tr → freshIds s as = true →
    Inv (execAll s as).1 (tr ++ (execAll s as).2) := by
  induction as with
  | nil =>
    intro s tr h _
    simpa [execAll] using h
  | cons a rest ih =>
    intro s tr h hf
    unfold freshIds at hf
    rw [Bool.and_eq_true] at hf
    have h1 : Inv (exec s a).1 (tr ++ (exec s a).2) := by
      apply inv_exec s tr a h
      intro ty id ha
      subst ha
      simpa using hf.1
    have h2 := ih (exec s a).1 (tr ++ (exec s a).2) h1 hf.2
    show Inv (execAll s (a :: rest)).1 (tr ++ (execAll s (a :: rest)).2)
    unfold execAll
    rw [← List.append_assoc]
    exact h2

theorem execAll_append (s : BridgeState) (as bs : List Action) :
    execAll s (as ++ bs)
      = ((execAll (execAll s as).1 bs).1,
          (execAll s as).2 ++ (execAll (execAll s as).1 bs).2) := by
  induction as generalizing s with
  | nil => simp [execAll]
  | cons a rest ih =>
    have h2 : execAll s (a :: (rest ++ bs))
        = ((execAll (exec s a).1 (rest ++ bs)).1,
            (exec s a).2 ++ (execAll (exec s a).1 (rest ++ bs)).2) := rfl
    have h3 : execAll s (a :: rest)
        = ((execAll (exec s a).1 rest).1,
            (exec s a).2 ++ (execAll (exec s a).1 rest).2) := rfl
    show execAll s (a :: (rest ++ bs)) = _
    rw [h2, ih (exec s a).1, h3]
    simp [List.append_assoc]

/-- C1: run any sequence of bridge steps (connections, frames, connected
sends with collision-free generated ids, timer firings) and then `stop()`.
Every call registered by `sendCommand` (exactly the serials below the
final counter) is settled exactly once across the whole trace — by a
matching response, its timeout, or the shutdown drain — no call is ever
settled twice, and the correlation table is empty after `stop()`. -/
theorem pending_settled_exactly_once (as : List Action)
    (hfresh : freshIds initState as = true) :
    (∀ k, settleCount (execAll initState (as ++ [Action.stop])).2 k ≤ 1) ∧
    (∀ k, k < (execAll initState (as ++ [Action.stop])).1.next →
      settleCount (execAll initState (as ++ [Action.stop])).2 k = 1) ∧
    (execAll initState (as ++ [Action.stop])).1.pendingCommands = [] := by
  have hinit : Inv initState [] := by
    refine ⟨[], rfl, rfl, List.nodup_nil, List.nodup_nil, ?_, ?_, ?_, ?_⟩
    · intro m hmem
      exact absurd hmem (List.not_mem_nil m)
    · intro k
      rw [settleCount_nil]
      omega
    · intro k hk
      exact absurd hk (by simp [initState])
    · intro k _
      exact ⟨rfl, by simp [ghostCalls]⟩
  have h1 := inv_execAll as initState [] hinit hfresh
  rw [List.nil_append] at h1
  obtain ⟨l, hm⟩ := h1
  have h2 := inv_stop (execAll initState as).1 (execAll initState as).2 l hm
  have heq := execAll_append initState as [Action.stop]
  have hsingle : execAll (execAll initState as).1 [Action.stop]
      = ((Figmad.stop (execAll initState as).1).1,
          (Figmad.stop (execAll initState as).1).2 ++ []) := rfl
  refine ⟨?_, ?_, ?_⟩
  · intro k
    rw [heq, hsingle]
    simp only [List.append_nil]
    exact h2.once k
  · intro k hk
    rw [heq, hsingle] at hk
    rw [heq, hsingle]
    simp only [List.append_nil]
    rcases h2.part k hk with ⟨hc1, _⟩ | ⟨_, hc2⟩
    · exact hc1
    · exact absurd hc2 (by simp [ghostCalls])
  · rw [heq, hsingle]
    simpa using h2.pend


theorem pending_settled_exactly_once_witness :
    freshIds initState exTrace = true ∧
    (execAll initState (exTrace ++ [Action.stop])).1.pendingCommands = [] ∧
    settleCount (execAll initState (exTrace ++ [Action.stop])).2 0 = 1 ∧
    settleCount (execAll initState (exTrace ++ [Action.stop])).2 1 = 1 :=
  ⟨by decide,
    (pending_settled_exactly_once exTrace (by decide)).2.2,
    (pending_settled_exactly_once exTrace (by decide)).2.1 0 (by decide),
    (pending_settled_exactly_once exTrace (by decide)).2.1 1 (by decide)⟩

end Figmad
